import Mathlib

/-!
A verification development for the `theshit` command-fixing tool.

The Rust sources are shallowly embedded:

* `src/fix/python.rs` — the script-rule loader (`process_python_rules`,
  `check_security`, `get_common_parent`, `get_module_name`).  The embedded
  Python engine (pyo3) is abstracted as an environment `PyEnv` supplying the
  file metadata, the import table and the behaviour of the `match`/`fix`
  attributes of each module; registering the common ancestor on `sys.path`
  is a side effect on that same engine state and is absorbed into the
  environment's import table (in the source it can only fail on interpreter
  corruption, which the embedding treats as out of scope).
* `src/shells/helpers.rs` — the ancestry walk `find_shell_in_process_tree`,
  over an abstract `ProcessInspector`.  The Rust `loop` is embedded with an
  explicit fuel parameter: `none` means the fuel ran out, so termination of
  the source loop is `∃ fuel` such that the result is not `none`.
* `src/fix/rust.rs` — the native-rule dispatch `fix_native`/`match_and_fix`,
  generic over the rule bodies.
* `src/shells/zsh.rs` — `parse_alias`.  A Rust panic (out-of-bounds index or
  invalid slice range) is embedded as `Option.none`.

Filesystem paths are modeled as their normalized component sequences, as
produced by Rust's `Path::components`: a root-directory marker followed by
normal named components (the `CurDir`/`ParentDir`/`Prefix` component kinds
do not occur in the inputs the claims are about and are outside the model;
a root marker is only meaningful at the head of a sequence).
-/

/-- One component of a filesystem path, mirroring the two kinds of
`std::path::Component` the tool actually manipulates. -/
inductive Component where
  | rootDir : Component
  | normal : String → Component
deriving DecidableEq, Repr

/-- A path is its (normalized) component sequence. -/
abbrev FsPath := List Component

/-- `Path::parent().unwrap_or(Path::new(""))`: dropping the final component,
with the empty path when there is none (root and empty both map to empty). -/
def parentPath (p : FsPath) : FsPath := p.dropLast

/-- The name a component contributes when a path is rendered as a string
(`to_string_lossy`): the root marker contributes the empty string between
separators, a normal component contributes its name. -/
def componentName : Component → String
  | Component.rootDir => ""
  | Component.normal s => s

/-- Joining a list of pieces with a separator between consecutive pieces. -/
def joinWith (sep : String) : List String → String
  | [] => ""
  | [s] => s
  | s :: rest => s ++ sep ++ joinWith sep rest

/-- Rendering a component sequence the way `PathBuf::to_string_lossy` does:
an absolute path is a slash followed by the slash-joined names, a relative
path is just the slash-joined names. -/
def renderPath : FsPath → String
  | [] => ""
  | Component.rootDir :: rest => "/" ++ joinWith "/" (rest.map componentName)
  | p => joinWith "/" (p.map componentName)

/-- `str::replace(['/', '\\'], ".")` — every separator character becomes a
dot (replacement is one character for one character, so a map suffices). -/
def dotSeparators (s : String) : String :=
  String.mk (s.data.map (fun c => if c = '/' || c = '\\' then '.' else c))

/-- `Path::strip_prefix`: succeeds exactly when `root` is a component-wise
prefix, returning the remaining components. -/
def stripPrefixPath (root p : FsPath) : Option FsPath :=
  if root.isPrefixOf p then some (p.drop root.length) else none

/-- `Path::file_name`: the final component when it is a normal one. -/
def fileNamePath (p : FsPath) : Option String :=
  match p.getLast? with
  | some (Component.normal s) => some s
  | _ => none

/-- Splitting a character sequence at its last dot (`str::rfind('.')`):
`none` when there is no dot, otherwise the text before and after it. -/
def lastDotSplit : List Char → Option (List Char × List Char)
  | [] => none
  | c :: cs =>
    match lastDotSplit cs with
    | some q => some (c :: q.1, q.2)
    | none => if c = '.' then some ([], cs) else none

/-- The stem of a file name, per Rust's `Path::file_stem` on the name:
the whole name when it has no dot, or when the only text before the final
dot is empty (a leading-dot name such as `.bashrc`); otherwise the portion
before the final dot. -/
def fileStemOfName (s : String) : String :=
  match lastDotSplit s.data with
  | none => s
  | some q => if q.1 = [] then s else String.mk q.1

/-- `Path::file_stem` of a whole path. -/
def fileStemPath (p : FsPath) : Option String :=
  (fileNamePath p).map fileStemOfName

/-- `acc.iter().zip(&comps).take_while(|(a, b)| a == b).map(|(a, _)| *a)`:
the pairwise common prefix used inside the fold of `get_common_parent`. -/
def zipCommon (a b : FsPath) : FsPath :=
  ((a.zip b).takeWhile (fun q => q.1 == q.2)).map Prod.fst

/-- `get_common_parent` from `src/fix/python.rs`: `None` on an empty slice;
the parent of the single element on a one-element slice; otherwise the fold
of the pairwise component common prefix over the remaining paths, with
`None` when that prefix is empty. -/
def get_common_parent (paths : List FsPath) : Option FsPath :=
  match paths with
  | [] => none
  | [p] => some (parentPath p)
  | first :: rest =>
    let common := rest.foldl (fun acc q => zipCommon acc q) first
    if common.isEmpty then none else some common

/-- `get_module_name` from `src/fix/python.rs`: strip the common-parent
prefix (failure → `None`), take the parent of the remainder, push the file
stem of the rule path (no stem → `None`), render, and turn separators into
dots. -/
def get_module_name (modulesDirPath rulePath : FsPath) : Option String :=
  match stripPrefixPath modulesDirPath rulePath with
  | none => none
  | some stripped =>
    match fileStemPath rulePath with
    | none => none
    | some stem =>
      some (dotSeparators (renderPath (parentPath stripped ++ [Component.normal stem])))

/-- Recursive form of the pairwise component common prefix, convenient for
induction. -/
def lcp : FsPath → FsPath → FsPath
  | a :: as', b :: bs => if a = b then a :: lcp as' bs else []
  | _, _ => []

theorem zipCommon_eq_lcp (a b : FsPath) : zipCommon a b = lcp a b := by
  induction a generalizing b with
  | nil => cases b <;> rfl
  | cons x xs ih =>
    cases b with
    | nil => rfl
    | cons y ys =>
      by_cases h : x = y
      · subst h
        simp [zipCommon, lcp, List.zip, List.takeWhile] at ih ⊢
        exact ih ys
      · have hbeq : (x == y) = false := by simp [h]
        simp [zipCommon, lcp, List.zip, List.takeWhile, hbeq, h]

theorem lcp_prefix_left (a b : FsPath) : lcp a b <+: a := by
  induction a generalizing b with
  | nil => cases b <;> simp [lcp]
  | cons x xs ih =>
    cases b with
    | nil => simp [lcp]
    | cons y ys =>
      by_cases h : x = y
      · subst h
        simpa [lcp] using (List.cons_prefix_cons (a := x) (b := x)).mpr ⟨rfl, ih ys⟩
      · simp [lcp, h]

theorem lcp_prefix_right (a b : FsPath) : lcp a b <+: b := by
  induction a generalizing b with
  | nil => cases b <;> simp [lcp]
  | cons x xs ih =>
    cases b with
    | nil => simp [lcp]
    | cons y ys =>
      by_cases h : x = y
      · subst h
        simpa [lcp] using (List.cons_prefix_cons (a := x) (b := x)).mpr ⟨rfl, ih ys⟩
      · simp [lcp, h]

theorem prefix_lcp {d a b : FsPath} (ha : d <+: a) (hb : d <+: b) : d <+: lcp a b := by
  induction d generalizing a b with
  | nil => exact List.nil_prefix
  | cons x xs ih =>
    obtain ⟨ta, rfl⟩ := ha
    obtain ⟨tb, hb'⟩ := hb
    cases b with
    | nil => exact absurd hb' (by simp)
    | cons y ys =>
      have hx : x = y := by
        have := hb'
        simp at this
        exact this.1
      subst hx
      have hys : xs ++ tb = ys := by
        have := hb'
        simpa using this
      have hpre : xs <+: ys := ⟨tb, hys⟩
      simpa [lcp] using
        (List.cons_prefix_cons (a := x) (b := x)).mpr ⟨rfl, ih (List.prefix_append xs ta) hpre⟩

/-- The failed command handed to every rule, per `src/fix/structs.rs`.
Modelled from the spec: `fix/structs.rs` is not among the available sources;
§3 of the design document defines `Command` as the immutable triple of raw
command text, captured standard output and captured standard error. -/
structure Command where
  command : String
  stdout : String
  stderr : String
deriving DecidableEq, Repr

/-- The error taxonomy of `src/error.rs` (`AppError`); the payload of `Io`
is the rendered I/O error. -/
inductive AppError where
  | io : String → AppError
  | python : String → AppError
  | security : String → AppError
  | config : String → AppError
deriving DecidableEq, Repr

/-- The two file attributes `check_security` reads from `fs::metadata`:
the owning user id and the permission mode bits. -/
structure FileMeta where
  uid : Nat
  mode : Nat
deriving DecidableEq, Repr

/-- A Python value as far as the loader observes one: `extract::<bool>` and
`extract::<String>` succeed on the matching constructor only. -/
inductive PyValue where
  | bool : Bool → PyValue
  | str : String → PyValue
  | other : PyValue
deriving DecidableEq, Repr

/-- A Python attribute as the loader uses it: whether it is callable, and
what calling it with the three positional arguments does (an `error` is a
raised exception). -/
structure PyObj where
  callable : Bool
  call : String → String → String → Except String PyValue

/-- An imported Python module: its attribute table (`getattr`; an `error`
is a missing attribute). -/
structure PyModule where
  getattr : String → Except String PyObj

/-- The ambient state the loader runs against: the effective uid of the
process, the result of `fs::metadata` per path (`none` = I/O failure), and
the Python engine's import table by dotted module name (with the batch's
common ancestor already registered on `sys.path`). -/
structure PyEnv where
  euid : Nat
  stat : FsPath → Option FileMeta
  importMod : String → Except String PyModule

/-- `check_security` from `src/fix/python.rs`: metadata failure is an I/O
error; an owning uid different from the effective uid is a security error;
any group- or other-write bit (mask `0o022`) is a security error. -/
def check_security (env : PyEnv) (path : FsPath) : Except AppError Unit :=
  match env.stat path with
  | none => Except.error (AppError.io "metadata failed")
  | some meta =>
    if env.euid ≠ meta.uid then
      Except.error (AppError.security "file is owned by another user")
    else if meta.mode &&& 0o22 ≠ 0 then
      Except.error (AppError.security "rule is writable by non-owners")
    else
      Except.ok ()

/-- `match_func.call1((command, stdout, stderr)).and_then(|r| r.extract::<bool>())`. -/
def callBool (f : PyObj) (cmd : Command) : Except String Bool :=
  match f.call cmd.command cmd.stdout cmd.stderr with
  | Except.error e => Except.error e
  | Except.ok (PyValue.bool b) => Except.ok b
  | Except.ok _ => Except.error "TypeError: result is not a bool"

/-- `fix_func.call1((command, stdout, stderr)).and_then(|r| r.extract::<String>())`. -/
def callStr (f : PyObj) (cmd : Command) : Except String String :=
  match f.call cmd.command cmd.stdout cmd.stderr with
  | Except.error e => Except.error e
  | Except.ok (PyValue.str s) => Except.ok s
  | Except.ok _ => Except.error "TypeError: result is not a string"

/-- The loop state of `process_python_rules`, instrumented with an event
log: `fixed` is the `fixed_commands` accumulator; `imports` records every
module name on which `py.import` was invoked (successfully or not);
`fixCalls` records every module whose `fix` callable was invoked. -/
structure RuleState where
  fixed : List String
  imports : List String
  fixCalls : List String
deriving DecidableEq, Repr

/-- One iteration of the `for rule_path in rule_paths` loop of
`process_python_rules`: every per-rule failure is a `continue`, i.e. leaves
the accumulator as it stands. -/
def ruleStep (env : PyEnv) (cmd : Command) (modulePath : FsPath)
    (st : RuleState) (rulePath : FsPath) : RuleState :=
  match check_security env rulePath with
  | Except.error _ => st
  | Except.ok _ =>
    match get_module_name modulePath rulePath with
    | none => st
    | some moduleName =>
      let st1 : RuleState := { st with imports := st.imports ++ [moduleName] }
      match env.importMod moduleName with
      | Except.error _ => st1
      | Except.ok md =>
        match md.getattr "match" with
        | Except.error _ => st1
        | Except.ok matchFunc =>
          match md.getattr "fix" with
          | Except.error _ => st1
          | Except.ok fixFunc =>
            if matchFunc.callable && fixFunc.callable then
              match callBool matchFunc cmd with
              | Except.error _ => st1
              | Except.ok isMatch =>
                if isMatch then
                  let st2 : RuleState := { st1 with fixCalls := st1.fixCalls ++ [moduleName] }
                  match callStr fixFunc cmd with
                  | Except.error _ => st2
                  | Except.ok fixedCommand => { st2 with fixed := st2.fixed ++ [fixedCommand] }
                else st1
            else st1

/-- The whole loop of `process_python_rules`, starting from the empty
accumulator. -/
def runRules (env : PyEnv) (cmd : Command) (modulePath : FsPath)
    (rulePaths : List FsPath) : RuleState :=
  rulePaths.foldl (ruleStep env cmd modulePath) ⟨[], [], []⟩

/-- `process_python_rules` from `src/fix/python.rs`: empty batch → `Ok []`
at once; no common parent → the configuration error; otherwise the loop
runs over every path and the accumulated strings are returned. -/
def process_python_rules (env : PyEnv) (cmd : Command)
    (rulePaths : List FsPath) : Except AppError (List String) :=
  if rulePaths.isEmpty then Except.ok []
  else
    match get_common_parent rulePaths with
    | none => Except.error (AppError.config "No common parent found for rule paths")
    | some modulePath => Except.ok (runRules env cmd modulePath rulePaths).fixed

/-- The effect of one loop iteration on the `fixed_commands` accumulator
alone. -/
def fixedStep (env : PyEnv) (cmd : Command) (modulePath : FsPath)
    (fixed : List String) (rulePath : FsPath) : List String :=
  (ruleStep env cmd modulePath ⟨fixed, [], []⟩ rulePath).fixed

/-- The per-rule failure modes of one loop iteration, as enumerated by the
source: security denial, module-name derivation failure, import error,
missing `match` or `fix` attribute, a non-callable pair, an error or type
mismatch when invoking `match`, or an error or type mismatch when invoking
`fix` after `match` returned true. -/
def ruleFails (env : PyEnv) (cmd : Command) (modulePath : FsPath) (rulePath : FsPath) : Prop :=
  (∃ e, check_security env rulePath = Except.error e)
  ∨ get_module_name modulePath rulePath = none
  ∨ (∃ n, get_module_name modulePath rulePath = some n ∧
      ((∃ e, env.importMod n = Except.error e)
       ∨ (∃ md, env.importMod n = Except.ok md ∧
           ((∃ e, md.getattr "match" = Except.error e)
            ∨ (∃ e, md.getattr "fix" = Except.error e)
            ∨ (∃ mf ff, md.getattr "match" = Except.ok mf ∧ md.getattr "fix" = Except.ok ff ∧
                (¬(mf.callable = true ∧ ff.callable = true)
                 ∨ (∃ e, callBool mf cmd = Except.error e)
                 ∨ (callBool mf cmd = Except.ok true ∧
                     ∃ e, callStr ff cmd = Except.error e)))))))

theorem ruleStep_fixed (env : PyEnv) (cmd : Command) (mp : FsPath)
    (st : RuleState) (p : FsPath) :
    (ruleStep env cmd mp st p).fixed = fixedStep env cmd mp st.fixed p := by
  unfold fixedStep ruleStep
  repeat' split
  all_goals rfl

theorem foldl_ruleStep_fixed (env : PyEnv) (cmd : Command) (mp : FsPath)
    (ps : List FsPath) (st : RuleState) :
    (ps.foldl (ruleStep env cmd mp) st).fixed = ps.foldl (fixedStep env cmd mp) st.fixed := by
  induction ps generalizing st with
  | nil => rfl
  | cons p ps ih =>
    simp only [List.foldl]
    rw [ih, ruleStep_fixed]

theorem ruleFails_fixed (env : PyEnv) (cmd : Command) (mp : FsPath) (p : FsPath)
    (h : ruleFails env cmd mp p) (st : RuleState) :
    (ruleStep env cmd mp st p).fixed = st.fixed := by
  unfold ruleFails at h
  rcases h with ⟨e, he⟩ | hnone | ⟨n, hn, hrest⟩
  · simp [ruleStep, he]
  · rcases hcs : check_security env p with e | u <;> simp [ruleStep, hcs, hnone]
  · rcases hcs : check_security env p with e | u
    · simp [ruleStep, hcs]
    · rcases hrest with ⟨e, he⟩ | ⟨md, hmd, hrest⟩
      · simp [ruleStep, hcs, hn, he]
      · rcases hrest with ⟨e, he⟩ | ⟨e, he⟩ | ⟨mf, ff, hmf, hff, hrest⟩
        · simp [ruleStep, hcs, hn, hmd, he]
        · rcases hma : md.getattr "match" with e' | mf
          · simp [ruleStep, hcs, hn, hmd, hma]
          · simp [ruleStep, hcs, hn, hmd, hma, he]
        · rcases hrest with hnc | ⟨e, he⟩ | ⟨hmt, e, he⟩
          · have hfalse : (mf.callable && ff.callable) = false := by
              by_cases h1 : mf.callable = true <;> by_cases h2 : ff.callable = true <;> simp_all
            simp [ruleStep, hcs, hn, hmd, hmf, hff, hfalse]
          · by_cases hc : (mf.callable && ff.callable) = true
            · simp [ruleStep, hcs, hn, hmd, hmf, hff, hc, he]
            · simp [ruleStep, hcs, hn, hmd, hmf, hff, hc]
          · by_cases hc : (mf.callable && ff.callable) = true
            · simp [ruleStep, hcs, hn, hmd, hmf, hff, hc, hmt, he]
            · simp [ruleStep, hcs, hn, hmd, hmf, hff, hc]

theorem check_security_denies (env : PyEnv) (p : FsPath) (m : FileMeta)
    (hstat : env.stat p = some m)
    (hbad : m.uid ≠ env.euid ∨ m.mode &&& 0o22 ≠ 0) :
    ∃ e, check_security env p = Except.error (AppError.security e) := by
  unfold check_security
  rw [hstat]
  by_cases h' : env.euid = m.uid
  · rcases hbad with h | h
    · exact absurd h' (fun e => h e.symm)
    · exact ⟨"rule is writable by non-owners", by simp [h', h]⟩
  · exact ⟨"file is owned by another user", by simp [h']⟩

/-- The shells the tool recognizes.  Modelled from the spec:
`src/shells/enums.rs` is not among the available sources; the helpers'
tests exercise `bash`, `zsh` and `fish` and the spec speaks of "a known
shell identifier", so the enum is modelled with exactly those variants. -/
inductive Shell where
  | bash : Shell
  | zsh : Shell
  | fish : Shell
deriving DecidableEq, Repr

/-- `Shell::from_str` on an executable base name.  Modelled from the spec:
the derived string parser of the missing enum maps each known identifier to
its variant and rejects everything else. -/
def shellFromStr (s : String) : Option Shell :=
  if s = "bash" then some Shell.bash
  else if s = "zsh" then some Shell.zsh
  else if s = "fish" then some Shell.fish
  else none

/-- The `ProcessInspector` trait of `src/shells/helpers.rs`: parent pid and
executable base name per pid, both partial. -/
structure ProcessInspector where
  getParentPid : Nat → Option Nat
  getExeName : Nat → Option String

/-- The shell the executable name of `pid` resolves to, if any — the
`if let Some(exe_name) = … && let Ok(shell) = Shell::from_str(…)` guard. -/
def exeShell (insp : ProcessInspector) (pid : Nat) : Option Shell :=
  match insp.getExeName pid with
  | some name => shellFromStr name
  | none => none

/-- `find_shell_in_process_tree` from `src/shells/helpers.rs`, with the
unbounded `loop` made explicit by a fuel parameter: `some r` means the
source loop returns `r` within `fuel` iterations, `none` means it is still
running after `fuel` iterations.  Thus the source call terminates exactly
when some fuel yields a non-`none` result. -/
def findShellFuel (insp : ProcessInspector) : Nat → Nat → Option (Option Shell)
  | 0, _ => none
  | fuel + 1, pid =>
    match exeShell insp pid with
    | some shell => some (some shell)
    | none =>
      match insp.getParentPid pid with
      | some parentPid => if parentPid ≠ 0 then findShellFuel insp fuel parentPid else some none
      | none => some none

/-- Termination of the source loop started at `pid`. -/
def WalkTerminates (insp : ProcessInspector) (pid : Nat) : Prop :=
  ∃ fuel, findShellFuel insp fuel pid ≠ none

/-- The spec's description of shell resolution (§4.5 / §8), written as an
inductive derivation: a pid whose executable resolves to a shell resolves
immediately; a non-shell pid continues at a live non-sentinel parent; a
non-shell pid with a missing parent or the root-sentinel parent `0`
resolves to nothing. -/
inductive WalkResolves (insp : ProcessInspector) : Nat → Option Shell → Prop where
  | found (pid : Nat) (s : Shell) :
      exeShell insp pid = some s → WalkResolves insp pid (some s)
  | step (pid parent : Nat) (r : Option Shell) :
      exeShell insp pid = none → insp.getParentPid pid = some parent → parent ≠ 0 →
      WalkResolves insp parent r → WalkResolves insp pid r
  | missingParent (pid : Nat) :
      exeShell insp pid = none → insp.getParentPid pid = none →
      WalkResolves insp pid none
  | rootSentinel (pid : Nat) :
      exeShell insp pid = none → insp.getParentPid pid = some 0 →
      WalkResolves insp pid none

theorem findShellFuel_sound (insp : ProcessInspector) :
    ∀ fuel pid r, findShellFuel insp fuel pid = some r → WalkResolves insp pid r := by
  intro fuel
  induction fuel with
  | zero => intro pid r h; cases h
  | succ n ih =>
    intro pid r h
    rcases hx : exeShell insp pid with _ | s
    · rcases hp : insp.getParentPid pid with _ | parent
      · have : r = none := by
          simp [findShellFuel, hx, hp] at h
          exact h.symm
        subst this
        exact WalkResolves.missingParent pid hx hp
      · by_cases hz : parent = 0
        · subst hz
          have : r = none := by
            simp [findShellFuel, hx, hp] at h
            exact h.symm
          subst this
          exact WalkResolves.rootSentinel pid hx hp
        · have hrec : findShellFuel insp n parent = some r := by
            simpa [findShellFuel, hx, hp, hz] using h
          exact WalkResolves.step pid parent r hx hp hz (ih parent r hrec)
    · have : r = some s := by
        simp [findShellFuel, hx] at h
        exact h.symm
      subst this
      exact WalkResolves.found pid s hx

theorem findShellFuel_complete (insp : ProcessInspector) (pid : Nat) (r : Option Shell)
    (h : WalkResolves insp pid r) :
    ∃ fuel, findShellFuel insp fuel pid = some r := by
  induction h with
  | found pid s hx => exact ⟨1, by simp [findShellFuel, hx]⟩
  | step pid parent r hx hp hz _ ih =>
    obtain ⟨n, hn⟩ := ih
    exact ⟨n + 1, by simp [findShellFuel, hx, hp, hz, hn]⟩
  | missingParent pid hx hp => exact ⟨1, by simp [findShellFuel, hx, hp]⟩
  | rootSentinel pid hx hp => exact ⟨1, by simp [findShellFuel, hx, hp]⟩

/-- The names of the compiled-in rules, per the `NativeRule` enum of
`src/fix/rust.rs`. -/
inductive NativeRule where
  | sudo : NativeRule
  | toCd : NativeRule
  | unsudo : NativeRule
  | mkdirP : NativeRule
  | cargoNoCommand : NativeRule
deriving DecidableEq, Repr

/-- The bodies of the five compiled-in rules.  Modelled from the spec:
the rule modules (`sudo.rs`, `to_cd.rs`, `unsudo.rs`, `mkdir_p.rs`,
`cargo_no_command.rs`) are not among the available sources; §4.4 defines
each as a pure `is_match` predicate with either an infallible or a
fallible `fix` (the dispatch in `src/fix/rust.rs` shows which three are
infallible and which two are fallible), so the dispatch is embedded
generically over them. -/
structure NativeImpls where
  sudoMatch : Command → Bool
  sudoFix : Command → String
  toCdMatch : Command → Bool
  toCdFix : Command → String
  unsudoMatch : Command → Bool
  unsudoFix : Command → String
  mkdirPMatch : Command → Bool
  mkdirPFix : Command → Except String String
  cargoNoCommandMatch : Command → Bool
  cargoNoCommandFix : Command → Except String String

/-- `NativeRule::match_and_fix`: gate the (thunked) fix behind the match
predicate. -/
def match_and_fix (matchFunction : Command → Bool) (fixFunction : Unit → Option String)
    (cmd : Command) : Option String :=
  if matchFunction cmd then fixFunction () else none

/-- `NativeRule::fix_native` from `src/fix/rust.rs`: each variant gates its
fix behind its match; the two fallible fixes log their error and yield
`None`. -/
def fix_native (impls : NativeImpls) (rule : NativeRule) (cmd : Command) : Option String :=
  match rule with
  | NativeRule.sudo =>
    match_and_fix impls.sudoMatch (fun _ => some (impls.sudoFix cmd)) cmd
  | NativeRule.toCd =>
    match_and_fix impls.toCdMatch (fun _ => some (impls.toCdFix cmd)) cmd
  | NativeRule.unsudo =>
    match_and_fix impls.unsudoMatch (fun _ => some (impls.unsudoFix cmd)) cmd
  | NativeRule.mkdirP =>
    match_and_fix impls.mkdirPMatch
      (fun _ =>
        match impls.mkdirPFix cmd with
        | Except.ok s => some s
        | Except.error _ => none)
      cmd
  | NativeRule.cargoNoCommand =>
    match_and_fix impls.cargoNoCommandMatch
      (fun _ =>
        match impls.cargoNoCommandFix cmd with
        | Except.ok s => some s
        | Except.error _ => none)
      cmd

/-- The match predicate a given rule name dispatches to. -/
def isMatchOf (impls : NativeImpls) (rule : NativeRule) : Command → Bool :=
  match rule with
  | NativeRule.sudo => impls.sudoMatch
  | NativeRule.toCd => impls.toCdMatch
  | NativeRule.unsudo => impls.unsudoMatch
  | NativeRule.mkdirP => impls.mkdirPMatch
  | NativeRule.cargoNoCommand => impls.cargoNoCommandMatch

/-- A zsh alias map, as built by repeated `HashMap::insert` (a later
binding for a name replaces an earlier one). -/
abbrev AliasMap := List (String × String)

/-- `HashMap::insert`. -/
def insertAlias (m : AliasMap) (name value : String) : AliasMap :=
  (m.filter (fun q => q.1 ≠ name)) ++ [(name, value)]

/-- `str::split_once`: split at the first occurrence of the character. -/
def splitOnceChars : List Char → Char → Option (List Char × List Char)
  | [], _ => none
  | x :: xs, c =>
    if x = c then some ([], xs)
    else
      match splitOnceChars xs c with
      | some q => some (x :: q.1, q.2)
      | none => none

/-- `str::split_once` on strings. -/
def splitOnce (s : String) (c : Char) : Option (String × String) :=
  match splitOnceChars s.data c with
  | some q => some (⟨q.1⟩, ⟨q.2⟩)
  | none => none

/-- The single-quote character. -/
def singleQuote : Char := "'".data.headD ' '

/-- The quote-stripping block of `parse_alias` on the value's character
sequence, with Rust panics embedded as `none`: indexing
`value.as_bytes()[0]` panics on an empty value, and the slice
`&value[1..value.len() - 1]` panics when the value is a single quote
character (start 1 past end 0); otherwise one pair of matching enclosing
single or double quotes is removed. -/
def stripQuotesChars : List Char → Option (List Char)
  | [] => none
  | c :: rest =>
    let lastc := rest.getLastD c
    if (c = '"' ∧ lastc = '"') ∨ (c = singleQuote ∧ lastc = singleQuote) then
      match rest with
      | [] => none
      | _ :: _ => some rest.dropLast
    else some (c :: rest)

/-- The quote-stripping block of `parse_alias` on strings. -/
def stripQuotes (value : String) : Option String :=
  (stripQuotesChars value.data).map String.mk

/-- One iteration of the `for raw_alias in raw_aliases.split('\n')` loop of
`parse_alias`: lines without `=` (and empty lines) are skipped; otherwise
the line is split at the first `=` and the quote-stripped value is bound to
the name.  `none` propagates a panic. -/
def parseAliasLine (m : AliasMap) (line : String) : Option AliasMap :=
  if line.data.contains '=' = false ∨ line = "" then some m
  else
    match splitOnce line '=' with
    | none => some m
    | some q =>
      match stripQuotes q.2 with
      | none => none
      | some v => some (insertAlias m q.1 v)

/-- `str::split` at every occurrence of a separator character, keeping the
(possibly empty) pieces between occurrences. -/
def splitCharsOn (c : Char) : List Char → List (List Char)
  | [] => [[]]
  | x :: xs =>
    let r := splitCharsOn c xs
    if x = c then [] :: r
    else
      match r with
      | h :: t => (x :: h) :: t
      | [] => [[x]]

/-- `parse_alias` from `src/shells/zsh.rs`, with Rust panics embedded as
`none`. -/
def parse_alias (rawAliases : String) : Option AliasMap :=
  ((splitCharsOn '\n' rawAliases.data).map String.mk).foldlM parseAliasLine []

theorem foldl_zipCommon_eq (l : List FsPath) (init : FsPath) :
    l.foldl (fun acc q => zipCommon acc q) init = l.foldl lcp init := by
  induction l generalizing init with
  | nil => rfl
  | cons x xs ih => simp [List.foldl, zipCommon_eq_lcp, ih]

theorem foldl_lcp_le_init : ∀ (l : List FsPath) (init : FsPath), l.foldl lcp init <+: init
  | [], _ => List.prefix_refl _
  | x :: xs, init => (foldl_lcp_le_init xs (lcp init x)).trans (lcp_prefix_left init x)

theorem foldl_lcp_le_mem : ∀ (l : List FsPath) (init x : FsPath), x ∈ l →
    l.foldl lcp init <+: x
  | y :: ys, init, x, hx => by
    rcases List.mem_cons.mp hx with rfl | hx'
    · exact (foldl_lcp_le_init ys (lcp init x)).trans (lcp_prefix_right init x)
    · exact foldl_lcp_le_mem ys (lcp init y) x hx' 

theorem le_foldl_lcp (l : List FsPath) (init d : FsPath) (h0 : d <+: init)
    (h : ∀ x ∈ l, d <+: x) : d <+: l.foldl lcp init := by
  induction l generalizing init with
  | nil => exact h0
  | cons y ys ih =>
    exact ih (lcp init y) (prefix_lcp h0 (h y (by simp))) (fun x hx => h x (by simp [hx]))

theorem get_common_parent_multi (p q : FsPath) (rest : List FsPath) :
    get_common_parent (p :: q :: rest) =
      (if ((q :: rest).foldl lcp p).isEmpty then none
       else some ((q :: rest).foldl lcp p)) := by
  simp [get_common_parent, foldl_zipCommon_eq, zipCommon_eq_lcp]

/-- C5: `get_common_parent` returns `none` for the empty input; returns
exactly the parent directory of the path for a one-element input; and for
multi-element inputs returns the component-wise longest common prefix of
the paths' component sequences (it is a common prefix of every input and
every common prefix of all inputs is a prefix of it), returning `none`
exactly when that longest common prefix has zero components. -/
theorem common_ancestor_contract :
    get_common_parent [] = none ∧
    (∀ p : FsPath, get_common_parent [p] = some (parentPath p)) ∧
    (∀ (p q : FsPath) (rest : List FsPath) (c : FsPath),
        get_common_parent (p :: q :: rest) = some c →
        c ≠ [] ∧ (∀ x ∈ p :: q :: rest, c <+: x) ∧
        ∀ d : FsPath, (∀ x ∈ p :: q :: rest, d <+: x) → d <+: c) ∧
    (∀ (p q : FsPath) (rest : List FsPath),
        get_common_parent (p :: q :: rest) = none →
        ∀ d : FsPath, (∀ x ∈ p :: q :: rest, d <+: x) → d = []) := by
  refine ⟨rfl, fun p => rfl, ?_, ?_⟩
  · intro p q rest c hc
    rw [get_common_parent_multi] at hc
    by_cases h : ((q :: rest).foldl lcp p).isEmpty
    · rw [if_pos h] at hc
      cases hc
    · rw [if_neg h] at hc
      obtain rfl : (q :: rest).foldl lcp p = c := Option.some.inj hc
      refine ⟨fun heq => h (by simp [heq]), ?_, ?_⟩
      · intro x hx
        rcases List.mem_cons.mp hx with rfl | hx'
        · exact foldl_lcp_le_init _ _
        · exact foldl_lcp_le_mem _ _ _ hx'
      · intro d hd
        exact le_foldl_lcp _ _ _ (hd p (by simp)) (fun x hx => hd x (by simp [hx]))
  · intro p q rest hc d hd
    rw [get_common_parent_multi] at hc
    by_cases h : ((q :: rest).foldl lcp p).isEmpty
    · have hfold : (q :: rest).foldl lcp p = [] := by simpa using h
      have hd' := le_foldl_lcp (q :: rest) p d (hd p (by simp)) (fun x hx => hd x (by simp [hx]))
      rw [hfold] at hd'
      simpa using hd'
    · rw [if_neg h] at hc
      cases hc

/-- Witness for C5 at a concrete two-path batch. -/
theorem common_ancestor_contract_witness :
    get_common_parent
        [[Component.rootDir, Component.normal "a", Component.normal "b.py"],
         [Component.rootDir, Component.normal "a", Component.normal "c.py"]] =
      some [Component.rootDir, Component.normal "a"] ∧
    ([Component.rootDir, Component.normal "a"] : FsPath) <+:
      [Component.rootDir, Component.normal "a", Component.normal "b.py"] := by
  have h : get_common_parent
      [[Component.rootDir, Component.normal "a", Component.normal "b.py"],
       [Component.rootDir, Component.normal "a", Component.normal "c.py"]] =
      some [Component.rootDir, Component.normal "a"] := by decide
  refine ⟨h, ?_⟩
  exact (common_ancestor_contract.2.2.1 _ _ [] _ h).2.1 _ (by simp)

theorem mk_append_mk (l m : List Char) : (⟨l⟩ : String) ++ (⟨m⟩ : String) = ⟨l ++ m⟩ := rfl

theorem dotSeparators_append (a b : String) :
    dotSeparators (a ++ b) = dotSeparators a ++ dotSeparators b := by
  cases a with
  | mk la =>
    cases b with
    | mk lb => simp [dotSeparators, mk_append_mk]

theorem dotSeparators_of_clean (s : String) (h1 : '/' ∉ s.data) (h2 : '\\' ∉ s.data) :
    dotSeparators s = s := by
  cases s with
  | mk l =>
    simp only [dotSeparators]
    congr 1
    induction l with
    | nil => rfl
    | cons c cs ih =>
      simp only [List.mem_cons, not_or] at h1 h2
      rw [List.map_cons]
      congr 1
      · simp [Ne.symm h1.1, Ne.symm h2.1]
      · simpa using ih h1.2 h2.2

theorem dotSeparators_joinWith (parts : List String)
    (h : ∀ s ∈ parts, '/' ∉ s.data ∧ '\\' ∉ s.data) :
    dotSeparators (joinWith "/" parts) = joinWith "." parts := by
  induction parts with
  | nil => rfl
  | cons s rest ih =>
    cases rest with
    | nil =>
      have hs := h s (by simp)
      simpa [joinWith] using dotSeparators_of_clean s hs.1 hs.2
    | cons t ts =>
      have hs := h s (by simp)
      have hrest : ∀ u ∈ t :: ts, '/' ∉ u.data ∧ '\\' ∉ u.data :=
        fun u hu => h u (by simp [hu])
      calc dotSeparators (s ++ "/" ++ joinWith "/" (t :: ts))
          = dotSeparators s ++ dotSeparators "/" ++ dotSeparators (joinWith "/" (t :: ts)) := by
            rw [dotSeparators_append, dotSeparators_append]
        _ = s ++ "." ++ joinWith "." (t :: ts) := by
            rw [dotSeparators_of_clean s hs.1 hs.2, ih hrest]
            rfl
        _ = joinWith "." (s :: t :: ts) := rfl

theorem lastDotSplit_eq (cs : List Char) (q : List Char × List Char)
    (h : lastDotSplit cs = some q) : cs = q.1 ++ '.' :: q.2 := by
  induction cs generalizing q with
  | nil => cases h
  | cons c cs ih =>
    rcases hr : lastDotSplit cs with _ | q'
    · rw [lastDotSplit, hr] at h
      by_cases hc : c = '.'
      · subst hc
        obtain rfl : ([], cs) = q := by simpa using h
        rfl
      · simp [hc] at h
    · rw [lastDotSplit, hr] at h
      obtain rfl : (c :: q'.1, q'.2) = q := Option.some.inj h
      simp [← ih q' hr]

theorem fileStemOfName_chars (s : String) (c : Char) (h : c ∉ s.data) :
    c ∉ (fileStemOfName s).data := by
  unfold fileStemOfName
  rcases hr : lastDotSplit s.data with _ | q
  · exact h
  · by_cases hq : q.1 = []
    · simp [hq]
      exact h
    · simp [hq]
      intro hmem
      exact h (by rw [lastDotSplit_eq s.data q hr]; exact List.mem_append_left _ hmem)

theorem map_componentName_normals (l : List String) :
    List.map componentName (l.map Component.normal) = l := by
  induction l with
  | nil => rfl
  | cons t ts ih => simp only [List.map_cons, componentName, ih]

theorem renderPath_normals (ss : List String) :
    renderPath (ss.map Component.normal) = joinWith "/" ss := by
  cases ss with
  | nil => rfl
  | cons s rest =>
    show joinWith "/" (List.map componentName ((s :: rest).map Component.normal)) =
      joinWith "/" (s :: rest)
    rw [map_componentName_normals]

/-- C6: `get_module_name root path` returns `none` whenever `path` is not a
component-wise descendant of `root` or `path`'s final component has no stem
(no normal file name), and otherwise — for a path `root / dirs… / name`
whose relative segments are normal components free of separator characters
— returns the dot-joined relative directory segments followed by the file
stem of `name`. -/
theorem module_name_contract :
    (∀ root p : FsPath, ¬ root <+: p → get_module_name root p = none) ∧
    (∀ root p : FsPath, fileStemPath p = none → get_module_name root p = none) ∧
    (∀ (root : FsPath) (dirs : List String) (name : String),
        (∀ s ∈ dirs ++ [name], '/' ∉ s.data ∧ '\\' ∉ s.data) →
        get_module_name root (root ++ dirs.map Component.normal ++ [Component.normal name]) =
          some (joinWith "." (dirs ++ [fileStemOfName name]))) := by
  refine ⟨?_, ?_, ?_⟩
  · intro root p h
    have hb : root.isPrefixOf p = false := by
      rcases hv : root.isPrefixOf p with _ | _
      · rfl
      · exact absurd (List.isPrefixOf_iff_prefix.mp hv) h
    simp [get_module_name, stripPrefixPath, hb]
  · intro root p h
    rcases hsp : stripPrefixPath root p with _ | stripped <;>
      simp [get_module_name, hsp, h]
  · intro root dirs name hclean
    have hname := hclean name (by simp)
    have hrel : root ++ dirs.map Component.normal ++ [Component.normal name] =
        root ++ (dirs.map Component.normal ++ [Component.normal name]) := by
      simp [List.append_assoc]
    have hpre : root.isPrefixOf
        (root ++ dirs.map Component.normal ++ [Component.normal name]) = true := by
      rw [hrel]
      exact List.isPrefixOf_iff_prefix.mpr (List.prefix_append root _)
    have hstrip : stripPrefixPath root
        (root ++ dirs.map Component.normal ++ [Component.normal name]) =
        some (dirs.map Component.normal ++ [Component.normal name]) := by
      rw [stripPrefixPath, if_pos hpre, hrel, List.drop_left]
    have hstem : fileStemPath
        (root ++ dirs.map Component.normal ++ [Component.normal name]) =
        some (fileStemOfName name) := by
      rw [fileStemPath, fileNamePath]
      rw [show root ++ dirs.map Component.normal ++ [Component.normal name] =
        (root ++ dirs.map Component.normal) ++ [Component.normal name] by simp]
      rw [List.getLast?_concat]
      rfl
    rw [get_module_name, hstrip, hstem]
    show some (dotSeparators (renderPath
        (parentPath (dirs.map Component.normal ++ [Component.normal name]) ++
          [Component.normal (fileStemOfName name)]))) =
      some (joinWith "." (dirs ++ [fileStemOfName name]))
    have hparent : parentPath (dirs.map Component.normal ++ [Component.normal name]) =
        dirs.map Component.normal := List.dropLast_concat
    rw [hparent]
    have hmapconcat : dirs.map Component.normal ++ [Component.normal (fileStemOfName name)] =
        (dirs ++ [fileStemOfName name]).map Component.normal := by
      simp
    rw [hmapconcat, renderPath_normals]
    have hcleanstem : ∀ s ∈ dirs ++ [fileStemOfName name], '/' ∉ s.data ∧ '\\' ∉ s.data := by
      intro s hs
      rcases List.mem_append.mp hs with hs' | hs'
      · exact hclean s (List.mem_append_left _ hs')
      · have : s = fileStemOfName name := by simpa using hs'
        subst this
        exact ⟨fileStemOfName_chars name _ hname.1, fileStemOfName_chars name _ hname.2⟩
    rw [dotSeparators_joinWith _ hcleanstem]

/-- Witness for C6 at the spec's own example: root `/root/modules`, path
`/root/modules/sub/dir/rule.py`, module name `sub.dir.rule`. -/
theorem module_name_contract_witness :
    get_module_name [Component.rootDir, Component.normal "root", Component.normal "modules"]
        [Component.rootDir, Component.normal "root", Component.normal "modules",
         Component.normal "sub", Component.normal "dir", Component.normal "rule.py"] =
      some "sub.dir.rule" := by
  have h := module_name_contract.2.2
    [Component.rootDir, Component.normal "root", Component.normal "modules"]
    ["sub", "dir"] "rule.py" (by decide)
  exact h.trans (by decide)

/-- Paths of a concrete three-rule batch under `/rules`. -/
def rulePath1 : FsPath := [Component.rootDir, Component.normal "rules", Component.normal "r1.py"]

/-- Second concrete rule path. -/
def rulePath2 : FsPath := [Component.rootDir, Component.normal "rules", Component.normal "r2.py"]

/-- Third concrete rule path. -/
def rulePath3 : FsPath := [Component.rootDir, Component.normal "rules", Component.normal "r3.py"]

/-- A concrete rule path whose module is absent from the import table. -/
def rulePathBad : FsPath :=
  [Component.rootDir, Component.normal "rules", Component.normal "bad.py"]

/-- A concrete failed command. -/
def exampleCommand : Command := ⟨"tst cmd", "out", "err"⟩

/-- A callable whose invocation returns the given boolean. -/
def boolObj (b : Bool) : PyObj := ⟨true, fun _ _ _ => Except.ok (PyValue.bool b)⟩

/-- A callable whose invocation returns the given string. -/
def strObj (s : String) : PyObj := ⟨true, fun _ _ _ => Except.ok (PyValue.str s)⟩

/-- A module with a boolean-returning `match` and a string-returning `fix`. -/
def exampleModule (b : Bool) (s : String) : PyModule :=
  ⟨fun attr =>
    if attr = "match" then Except.ok (boolObj b)
    else if attr = "fix" then Except.ok (strObj s)
    else Except.error "AttributeError"⟩

/-- A concrete engine state: every file owned by the effective uid with mode
`0o600`; modules `r1`/`r3` match and fix to `cmd1`/`cmd3`, `r2` does not
match, anything else fails to import. -/
def exampleEnv : PyEnv :=
  { euid := 1000
    stat := fun _ => some ⟨1000, 0o600⟩
    importMod := fun n =>
      if n = "r1" then Except.ok (exampleModule true "cmd1")
      else if n = "r2" then Except.ok (exampleModule false "cmd2")
      else if n = "r3" then Except.ok (exampleModule true "cmd3")
      else Except.error "ModuleNotFoundError" }

/-- A concrete engine state whose single file fails the ownership check. -/
def badOwnerEnv : PyEnv :=
  { euid := 1000
    stat := fun _ => some ⟨0, 0o644⟩
    importMod := fun _ => Except.error "unused" }

/-- C1: a script rule file whose owning uid differs from the process's
effective uid, or whose permission mode has any bit of `0o022` set, is
denied by the security check before any import occurs: the loop iteration
for that file leaves the state untouched — no module name enters the log
of imports and no string enters the accumulator — regardless of the
other attribute. -/
theorem script_rule_security_gate (env : PyEnv) (cmd : Command) (mp : FsPath)
    (st : RuleState) (p : FsPath) (m : FileMeta)
    (hstat : env.stat p = some m)
    (hbad : m.uid ≠ env.euid ∨ m.mode &&& 0o22 ≠ 0) :
    ruleStep env cmd mp st p = st := by
  obtain ⟨e, he⟩ := check_security_denies env p m hstat hbad
  simp [ruleStep, he]

/-- Witness for C1 at a concrete uid-mismatched file. -/
theorem script_rule_security_gate_witness :
    ruleStep badOwnerEnv exampleCommand [Component.rootDir] ⟨[], [], []⟩ rulePath1 =
      ⟨[], [], []⟩ :=
  script_rule_security_gate badOwnerEnv exampleCommand [Component.rootDir] ⟨[], [], []⟩
    rulePath1 ⟨0, 0o644⟩ rfl (Or.inl (by decide))

/-- C2: a per-rule failure — security denial, module-name derivation
failure, import error, missing or non-callable `match`/`fix`, or an error
or type mismatch while invoking `match` or `fix` — only skips that rule:
the batch still returns `Ok` with exactly the strings accumulated from the
other rules, in order, and never a batch-level error. -/
theorem per_rule_failure_is_local (env : PyEnv) (cmd : Command) (mp : FsPath)
    (pre post : List FsPath) (p : FsPath)
    (hmp : get_common_parent (pre ++ p :: post) = some mp)
    (hfail : ruleFails env cmd mp p) :
    process_python_rules env cmd (pre ++ p :: post) =
      Except.ok (post.foldl (fixedStep env cmd mp)
        (pre.foldl (fixedStep env cmd mp) [])) := by
  have hne : (pre ++ p :: post).isEmpty = false := by simp
  rw [process_python_rules, hne]
  simp only [Bool.false_eq_true, if_false]
  rw [hmp]
  show Except.ok (List.foldl (ruleStep env cmd mp) ⟨[], [], []⟩ (pre ++ p :: post)).fixed =
    Except.ok (post.foldl (fixedStep env cmd mp) (pre.foldl (fixedStep env cmd mp) []))
  congr 1
  rw [List.foldl_append, List.foldl_cons, foldl_ruleStep_fixed,
    ruleFails_fixed env cmd mp p hfail, foldl_ruleStep_fixed]

/-- Witness for C2: a batch whose middle rule fails to import still yields
the fixes of the surrounding rules. -/
theorem per_rule_failure_is_local_witness :
    process_python_rules exampleEnv exampleCommand [rulePath1, rulePathBad, rulePath3] =
      Except.ok ["cmd1", "cmd3"] := by
  have h := per_rule_failure_is_local exampleEnv exampleCommand
    [Component.rootDir, Component.normal "rules"] [rulePath1] [rulePath3] rulePathBad
    (by decide)
    (Or.inr (Or.inr ⟨"bad", by decide, Or.inl ⟨"ModuleNotFoundError", rfl⟩⟩))
  exact h.trans rfl

/-- C3: an empty batch yields `Ok []` immediately; a non-empty batch with
no common ancestor fails with the configuration error mentioning the
absent common parent; and every error the loader can return is exactly
that configuration error in exactly that situation. -/
theorem loader_pipeline_failures (env : PyEnv) (cmd : Command) (paths : List FsPath) :
    (paths = [] → process_python_rules env cmd paths = Except.ok []) ∧
    (paths ≠ [] → get_common_parent paths = none →
      process_python_rules env cmd paths =
        Except.error (AppError.config "No common parent found for rule paths")) ∧
    (∀ e, process_python_rules env cmd paths = Except.error e →
      paths ≠ [] ∧ get_common_parent paths = none ∧
        e = AppError.config "No common parent found for rule paths") := by
  refine ⟨?_, ?_, ?_⟩
  · rintro rfl
    rfl
  · intro hne hnone
    cases paths with
    | nil => exact absurd rfl hne
    | cons q qs => simp [process_python_rules, hnone]
  · intro e he
    cases paths with
    | nil => cases he
    | cons q qs =>
      rcases hg : get_common_parent (q :: qs) with _ | mp
      · rw [process_python_rules] at he
        simp only [List.isEmpty_cons, Bool.false_eq_true, if_false, hg] at he
        exact ⟨by simp, rfl, (Except.error.inj he).symm⟩
      · rw [process_python_rules] at he
        simp [hg] at he

/-- Witness for C3: the empty batch and a concrete ancestor-free batch. -/
theorem loader_pipeline_failures_witness :
    process_python_rules exampleEnv exampleCommand [] = Except.ok [] ∧
    process_python_rules exampleEnv exampleCommand
        [[Component.normal "a", Component.normal "b.py"],
         [Component.normal "c", Component.normal "d.py"]] =
      Except.error (AppError.config "No common parent found for rule paths") :=
  ⟨(loader_pipeline_failures exampleEnv exampleCommand []).1 rfl,
   (loader_pipeline_failures exampleEnv exampleCommand
      [[Component.normal "a", Component.normal "b.py"],
       [Component.normal "c", Component.normal "d.py"]]).2.1 (by decide) (by decide)⟩

/-- C4: a script rule whose `match` returns true and whose `fix` returns a
string appends exactly that string; a rule whose `match` returns false
appends nothing and its `fix` is never invoked (the fix-call log does not
grow); a rule missing a callable `match`/`fix` pair appends nothing; and
the concrete three-rule batch matched-`cmd1` / unmatched / matched-`cmd3`
produces exactly `["cmd1", "cmd3"]` in order. -/
theorem script_rule_match_fix_contract :
    (∀ (env : PyEnv) (cmd : Command) (mp : FsPath) (st : RuleState) (p : FsPath)
        (n : String) (md : PyModule) (mf ff : PyObj) (s : String),
        check_security env p = Except.ok () →
        get_module_name mp p = some n →
        env.importMod n = Except.ok md →
        md.getattr "match" = Except.ok mf →
        md.getattr "fix" = Except.ok ff →
        mf.callable = true → ff.callable = true →
        callBool mf cmd = Except.ok true →
        callStr ff cmd = Except.ok s →
        ruleStep env cmd mp st p =
          ⟨st.fixed ++ [s], st.imports ++ [n], st.fixCalls ++ [n]⟩) ∧
    (∀ (env : PyEnv) (cmd : Command) (mp : FsPath) (st : RuleState) (p : FsPath)
        (n : String) (md : PyModule) (mf ff : PyObj),
        check_security env p = Except.ok () →
        get_module_name mp p = some n →
        env.importMod n = Except.ok md →
        md.getattr "match" = Except.ok mf →
        md.getattr "fix" = Except.ok ff →
        mf.callable = true → ff.callable = true →
        callBool mf cmd = Except.ok false →
        ruleStep env cmd mp st p = ⟨st.fixed, st.imports ++ [n], st.fixCalls⟩) ∧
    (∀ (env : PyEnv) (cmd : Command) (mp : FsPath) (st : RuleState) (p : FsPath)
        (n : String) (md : PyModule) (mf ff : PyObj),
        check_security env p = Except.ok () →
        get_module_name mp p = some n →
        env.importMod n = Except.ok md →
        md.getattr "match" = Except.ok mf →
        md.getattr "fix" = Except.ok ff →
        ¬(mf.callable = true ∧ ff.callable = true) →
        ruleStep env cmd mp st p = ⟨st.fixed, st.imports ++ [n], st.fixCalls⟩) ∧
    process_python_rules exampleEnv exampleCommand [rulePath1, rulePath2, rulePath3] =
      Except.ok ["cmd1", "cmd3"] := by
  refine ⟨?_, ?_, ?_, by rfl⟩
  · intro env cmd mp st p n md mf ff s hsec hn him hmf hff hc1 hc2 hmatch hfix
    simp [ruleStep, hsec, hn, him, hmf, hff, hc1, hc2, hmatch, hfix]
  · intro env cmd mp st p n md mf ff hsec hn him hmf hff hc1 hc2 hmatch
    simp [ruleStep, hsec, hn, him, hmf, hff, hc1, hc2, hmatch]
  · intro env cmd mp st p n md mf ff hsec hn him hmf hff hnc
    have hfalse : (mf.callable && ff.callable) = false := by
      by_cases h1 : mf.callable = true <;> by_cases h2 : ff.callable = true <;> simp_all
    simp [ruleStep, hsec, hn, him, hmf, hff, hfalse]

/-- Witness for C4: the first rule of the concrete batch appends `cmd1`
and records exactly one import and one fix invocation. -/
theorem script_rule_match_fix_contract_witness :
    ruleStep exampleEnv exampleCommand [Component.rootDir, Component.normal "rules"]
      ⟨[], [], []⟩ rulePath1 = ⟨["cmd1"], ["r1"], ["r1"]⟩ :=
  script_rule_match_fix_contract.1 exampleEnv exampleCommand
    [Component.rootDir, Component.normal "rules"] ⟨[], [], []⟩ rulePath1 "r1"
    (exampleModule true "cmd1") (boolObj true) (strObj "cmd1") "cmd1"
    rfl (by decide) rfl rfl rfl rfl rfl rfl rfl

/-- C7: the ancestry walk, for every process table, resolves exactly as the
spec describes: a start pid whose executable name is a known shell resolves
immediately to it; a chain through non-shell executables that reaches a
shell-named ancestor before a missing parent or the root sentinel resolves
to that ancestor's shell; and a chain reaching the root sentinel or a
missing parent without a shell resolves to nothing.  Formally, the fueled
loop returns `r` for some fuel iff the spec-side derivation `WalkResolves`
yields `r`. -/
theorem shell_walk_resolution (insp : ProcessInspector) (pid : Nat) (r : Option Shell) :
    (∃ fuel, findShellFuel insp fuel pid = some r) ↔ WalkResolves insp pid r :=
  ⟨fun h => h.elim (fun fuel hf => findShellFuel_sound insp fuel pid r hf),
   findShellFuel_complete insp pid r⟩

/-- A concrete process table: `my_cli_app` (pid 300) under `cargo` (200)
under `bash` (100). -/
def deepTree : ProcessInspector :=
  { getParentPid := fun p => if p = 300 then some 200 else if p = 200 then some 100 else none
    getExeName := fun p =>
      if p = 100 then some "bash"
      else if p = 200 then some "cargo"
      else if p = 300 then some "my_cli_app" else none }

/-- Witness for C7: the deep chain resolves to `bash`. -/
theorem shell_walk_resolution_witness : WalkResolves deepTree 300 (some Shell.bash) :=
  (shell_walk_resolution deepTree 300 (some Shell.bash)).mp ⟨3, by decide⟩

/-- A malformed process table with a parent cycle `100 ↔ 200` and no
shell-named executable anywhere. -/
def cyclicTree : ProcessInspector :=
  { getParentPid := fun p => if p = 100 then some 200 else if p = 200 then some 100 else none
    getExeName := fun _ => some "cargo" }

theorem cyclicTree_stuck : ∀ (fuel pid : Nat), pid = 100 ∨ pid = 200 →
    findShellFuel cyclicTree fuel pid = none := by
  intro fuel
  induction fuel with
  | zero => intro pid hpid; rfl
  | succ n ih =>
    intro pid hpid
    rcases hpid with rfl | rfl
    · have hstep : findShellFuel cyclicTree (n + 1) 100 = findShellFuel cyclicTree n 200 := by
        simp [findShellFuel, exeShell, cyclicTree, shellFromStr]
      rw [hstep]
      exact ih 200 (Or.inr rfl)
    · have hstep : findShellFuel cyclicTree (n + 1) 200 = findShellFuel cyclicTree n 100 := by
        simp [findShellFuel, exeShell, cyclicTree, shellFromStr]
      rw [hstep]
      exact ih 100 (Or.inl rfl)

/-- Counterexample for C8: on the malformed cyclic table the walk never
terminates — no amount of fuel produces a result, i.e. the source loop
runs forever. -/
theorem shell_walk_termination_counterexample : ¬ WalkTerminates cyclicTree 100 := by
  intro h
  obtain ⟨fuel, hf⟩ := h
  exact hf (cyclicTree_stuck fuel 100 (Or.inl rfl))

/-- C8 (amended): the walk terminates on every process table whose
followed parent links are acyclic — in particular whenever every live
(non-sentinel) parent id is strictly smaller than its child's id, as in a
consistent process-table snapshot — ending in a shell, a missing parent,
or the root sentinel.  (On a malformed table containing a parent cycle
with no shell the source loop runs forever, see the counterexample.) -/
theorem shell_walk_termination (insp : ProcessInspector) (pid : Nat)
    (hdec : ∀ q parent, insp.getParentPid q = some parent → parent ≠ 0 → parent < q) :
    WalkTerminates insp pid := by
  induction pid using Nat.strong_induction_on with
  | _ pid ih =>
    rcases hx : exeShell insp pid with _ | s
    · rcases hp : insp.getParentPid pid with _ | parent
      · exact ⟨1, by simp [findShellFuel, hx, hp]⟩
      · by_cases hz : parent = 0
        · subst hz
          exact ⟨1, by simp [findShellFuel, hx, hp]⟩
        · obtain ⟨n, hn⟩ := ih parent (hdec pid parent hp hz)
          exact ⟨n + 1, by simpa [findShellFuel, hx, hp, hz] using hn⟩
    · exact ⟨1, by simp [findShellFuel, hx]⟩

/-- Witness for C8's amended statement: the decreasing concrete table
terminates. -/
theorem shell_walk_termination_witness : WalkTerminates deepTree 300 := by
  apply shell_walk_termination
  intro q parent hq hnz
  simp only [deepTree] at hq
  split_ifs at hq with h1 h2
  · injection hq with h
    omega
  · injection hq with h
    omega

/-- C9: the native dispatch evaluates the rule's match predicate first and
returns `none` whenever it is false; the (thunked) fix is only evaluated on
a match — the result never depends on the fix thunk when the match is
false; an infallible fix that matches returns its string; and a fallible
fix that errors yields `none` rather than a fatal error. -/
theorem native_dispatch_contract :
    (∀ (impls : NativeImpls) (rule : NativeRule) (cmd : Command),
        isMatchOf impls rule cmd = false → fix_native impls rule cmd = none) ∧
    (∀ (mf : Command → Bool) (ff ff' : Unit → Option String) (cmd : Command),
        mf cmd = false → match_and_fix mf ff cmd = match_and_fix mf ff' cmd) ∧
    (∀ (impls : NativeImpls) (cmd : Command),
        impls.sudoMatch cmd = true →
        fix_native impls NativeRule.sudo cmd = some (impls.sudoFix cmd)) ∧
    (∀ (impls : NativeImpls) (cmd : Command) (e : String),
        impls.mkdirPMatch cmd = true → impls.mkdirPFix cmd = Except.error e →
        fix_native impls NativeRule.mkdirP cmd = none) ∧
    (∀ (impls : NativeImpls) (cmd : Command) (e : String),
        impls.cargoNoCommandMatch cmd = true →
        impls.cargoNoCommandFix cmd = Except.error e →
        fix_native impls NativeRule.cargoNoCommand cmd = none) := by
  refine ⟨?_, ?_, ?_, ?_, ?_⟩
  · intro impls rule cmd h
    cases rule <;> simp_all [fix_native, match_and_fix, isMatchOf]
  · intro mf ff ff' cmd h
    simp [match_and_fix, h]
  · intro impls cmd h
    simp [fix_native, match_and_fix, h]
  · intro impls cmd e h1 h2
    simp [fix_native, match_and_fix, h1, h2]
  · intro impls cmd e h1 h2
    simp [fix_native, match_and_fix, h1, h2]

/-- Concrete native-rule bodies: only `mkdir_p` matches, and its fallible
fix fails. -/
def exampleImpls : NativeImpls :=
  { sudoMatch := fun _ => false
    sudoFix := fun _ => ""
    toCdMatch := fun _ => false
    toCdFix := fun _ => ""
    unsudoMatch := fun _ => false
    unsudoFix := fun _ => ""
    mkdirPMatch := fun _ => true
    mkdirPFix := fun _ => Except.error "boom"
    cargoNoCommandMatch := fun _ => false
    cargoNoCommandFix := fun _ => Except.ok "" }

/-- Witness for C9: the failing fallible fix yields `none`. -/
theorem native_dispatch_contract_witness :
    fix_native exampleImpls NativeRule.mkdirP exampleCommand = none :=
  native_dispatch_contract.2.2.2.1 exampleImpls exampleCommand "boom" rfl rfl

/-- Counterexample for C10: `parse_alias` is not total — a line whose value
after `=` is empty panics on the `value_bytes[0]` index, and a value that
is a single quote character (of either kind) panics on the
`&value[1..value.len() - 1]` slice; the embedding returns `none` exactly
where the source panics. -/
theorem parse_alias_counterexample :
    parse_alias "x=" = none ∧ parse_alias "y='" = none ∧ parse_alias "z=\"" = none :=
  ⟨by decide, by decide, by decide⟩

/-- The amended safety condition on a line: if it splits at `=`, its value
must be nonempty and must not be a lone quote character. -/
def lineSafe (line : String) : Bool :=
  match splitOnce line '=' with
  | none => true
  | some q => decide (q.2 ≠ "" ∧ q.2 ≠ "'" ∧ q.2 ≠ "\"")

theorem stripQuotes_isSome (v : String) (h1 : v ≠ "") (h2 : v ≠ "'") (h3 : v ≠ "\"") :
    (stripQuotes v).isSome = true := by
  cases v with
  | mk l =>
    cases l with
    | nil => exact absurd rfl h1
    | cons c rest =>
      cases rest with
      | nil =>
        show (Option.map String.mk (stripQuotesChars [c])).isSome = true
        rw [show stripQuotesChars [c] =
            (if (c = '"' ∧ c = '"') ∨ (c = singleQuote ∧ c = singleQuote) then
              (none : Option (List Char))
            else some [c]) from rfl]
        by_cases hq : (c = '"' ∧ c = '"') ∨ (c = singleQuote ∧ c = singleQuote)
        · exfalso
          rcases hq with ⟨rfl, _⟩ | ⟨rfl, _⟩
          · exact h3 rfl
          · exact h2 rfl
        · rw [if_neg hq]
          rfl
      | cons x xs =>
        show (Option.map String.mk (stripQuotesChars (c :: x :: xs))).isSome = true
        rw [show stripQuotesChars (c :: x :: xs) =
            (if (c = '"' ∧ (x :: xs).getLastD c = '"') ∨
                (c = singleQuote ∧ (x :: xs).getLastD c = singleQuote) then
              some ((x :: xs).dropLast)
            else some (c :: x :: xs)) from rfl]
        by_cases hq : (c = '"' ∧ (x :: xs).getLastD c = '"') ∨
            (c = singleQuote ∧ (x :: xs).getLastD c = singleQuote)
        · rw [if_pos hq]
          rfl
        · rw [if_neg hq]
          rfl

theorem parseAliasLine_isSome (line : String) (hline : lineSafe line = true) (m : AliasMap) :
    (parseAliasLine m line).isSome = true := by
  unfold parseAliasLine
  by_cases hc : line.data.contains '=' = false ∨ line = ""
  · rw [if_pos hc]
    rfl
  · rw [if_neg hc]
    rcases hs : splitOnce line '=' with _ | q
    · rfl
    · unfold lineSafe at hline
      rw [hs] at hline
      have hsafe := of_decide_eq_true hline
      have hstrip := stripQuotes_isSome q.2 hsafe.1 hsafe.2.1 hsafe.2.2
      show (match stripQuotes q.2 with
          | none => (none : Option AliasMap)
          | some v => some (insertAlias m q.1 v)).isSome = true
      rcases hsq : stripQuotes q.2 with _ | v
      · rw [hsq] at hstrip
        cases hstrip
      · rfl

theorem foldlM_parseAliasLine_isSome (lines : List String) :
    ∀ m : AliasMap, (∀ line ∈ lines, lineSafe line = true) →
    (List.foldlM parseAliasLine m lines).isSome = true := by
  induction lines with
  | nil => intro m _; rfl
  | cons line rest ih =>
    intro m h
    rw [List.foldlM_cons]
    have hsome := parseAliasLine_isSome line (h line (by simp)) m
    rcases hp : parseAliasLine m line with _ | m'
    · rw [hp] at hsome
      cases hsome
    · exact ih m' (fun l hl => h l (by simp [hl]))

theorem stripQuotesChars_dquote (l : List Char) :
    stripQuotesChars ('"' :: (l ++ ['"'])) = some l := by
  rw [show stripQuotesChars ('"' :: (l ++ ['"'])) =
      (if ('"' = '"' ∧ (l ++ ['"']).getLastD '"' = '"') ∨
          ('"' = singleQuote ∧ (l ++ ['"']).getLastD '"' = singleQuote) then
        match l ++ ['"'] with
        | [] => none
        | _ :: _ => some (l ++ ['"']).dropLast
      else some ('"' :: (l ++ ['"']))) from rfl]
  rw [List.getLastD_concat, if_pos (Or.inl ⟨rfl, rfl⟩)]
  cases l with
  | nil => rfl
  | cons y ys =>
    show some (((y :: ys) ++ ['"']).dropLast) = some (y :: ys)
    rw [List.dropLast_concat]

theorem stripQuotesChars_squote (l : List Char) :
    stripQuotesChars (singleQuote :: (l ++ [singleQuote])) = some l := by
  rw [show stripQuotesChars (singleQuote :: (l ++ [singleQuote])) =
      (if (singleQuote = '"' ∧ (l ++ [singleQuote]).getLastD singleQuote = '"') ∨
          (singleQuote = singleQuote ∧
            (l ++ [singleQuote]).getLastD singleQuote = singleQuote) then
        match l ++ [singleQuote] with
        | [] => none
        | _ :: _ => some (l ++ [singleQuote]).dropLast
      else some (singleQuote :: (l ++ [singleQuote]))) from rfl]
  rw [List.getLastD_concat, if_pos (Or.inr ⟨rfl, rfl⟩)]
  cases l with
  | nil => rfl
  | cons y ys =>
    show some (((y :: ys) ++ [singleQuote]).dropLast) = some (y :: ys)
    rw [List.dropLast_concat]

/-- C10 (amended): `parse_alias` panics exactly on a line whose value after
`=` is empty or a lone quote character; on every input whose lines avoid
those values it returns a mapping without panicking, skipping lines with no
`=` and stripping exactly one pair of matching enclosing single or double
quotes from each value. -/
theorem parse_alias_amended :
    (∀ raw : String,
        (∀ line ∈ (splitCharsOn '\n' raw.data).map String.mk, lineSafe line = true) →
        (parse_alias raw).isSome = true) ∧
    (∀ (m : AliasMap) (line : String), line.data.contains '=' = false →
        parseAliasLine m line = some m) ∧
    (∀ inner : String, stripQuotes ("\"" ++ inner ++ "\"") = some inner) ∧
    (∀ inner : String, stripQuotes ("'" ++ inner ++ "'") = some inner) := by
  refine ⟨?_, ?_, ?_, ?_⟩
  · intro raw h
    exact foldlM_parseAliasLine_isSome _ [] h
  · intro m line h
    unfold parseAliasLine
    rw [if_pos (Or.inl h)]
  · intro inner
    cases inner with
    | mk l =>
      have hd : ("\"" ++ (⟨l⟩ : String) ++ "\"").data = '"' :: (l ++ ['"']) := rfl
      unfold stripQuotes
      rw [hd, stripQuotesChars_dquote]
      rfl
  · intro inner
    cases inner with
    | mk l =>
      have hd : ("'" ++ (⟨l⟩ : String) ++ "'").data = singleQuote :: (l ++ [singleQuote]) := rfl
      unfold stripQuotes
      rw [hd, stripQuotesChars_squote]
      rfl

/-- Witness for C10's amended statement at a concrete safe alias dump. -/
theorem parse_alias_amended_witness :
    (parse_alias "ll='ls -l'\nnot_an_alias\ngrep=\"g\"").isSome = true :=
  parse_alias_amended.1 "ll='ls -l'\nnot_an_alias\ngrep=\"g\"" (by decide)
